import Mathlib

/-!
Verification development for a toddler nutritional-status dashboard
(`src/app.py`).  The file gives a shallow embedding of the app's data
model and pure logic:

* the six-band z-score categoriser and trend interpreter
  (`interpret_trend`, app.py lines 74-96);
* the upload cleaning function (`clean_and_prepare_df`, lines 49-61);
* the monthly last-measurement reducer (`last_measurement_per_month`,
  lines 63-72), including the pandas semantics of a stable multi-column
  sort, of `groupby` dropping null keys, and of `GroupBy.last` taking the
  last non-null entry of each column separately;
* the posyandu location mapping (`map_posyandu`, lines 121-140);
* the manual-prediction submit handler of tab 2 (lines 240-264) and the
  history wipe of tab 3 (lines 269-278).

Numbers that the app holds as Python floats are modelled as rationals;
dates are modelled at day granularity as (year, month, day) triples.
-/

namespace GiziApp

/-! ### Trend classifier (`interpret_trend`, app.py lines 74-96) -/

/-- The six nutritional-status categories returned by the nested `cat`
function of `interpret_trend`. -/
inductive Category where
  | sangatBuruk
  | giziBuruk
  | giziKurang
  | giziBaik
  | risikoGiziLebih
  | giziLebihObesitas
deriving DecidableEq

/-- The band mapping of `interpret_trend.cat` (app.py lines 78-85),
translated guard by guard.  The source returns `np.nan` for a missing
score and falls through (returning `None`) if no guard fires; both of
those are `none` here, and both are removed by the `dropna` that follows
in the source. -/
def cat (z : ℚ) : Option Category :=
  if z < -3 then some .sangatBuruk
  else if -3 ≤ z ∧ z < -2 then some .giziBuruk
  else if -2 ≤ z ∧ z < -1 then some .giziKurang
  else if -1 ≤ z ∧ z < 2 then some .giziBaik
  else if 2 ≤ z ∧ z < 3 then some .risikoGiziLebih
  else if 3 ≤ z then some .giziLebihObesitas
  else none

/-- `sum(1 for i in range(1, len(cats)) if cats[i] != cats[i-1])`:
the number of adjacent unequal pairs. -/
def countChanges : List Category → ℕ
  | [] => 0
  | [_] => 0
  | a :: b :: rest => (if a ≠ b then 1 else 0) + countChanges (b :: rest)

/-- `interpret_trend` (app.py lines 74-96).  The input is the ordered
z-score series, a missing entry being `none`.  The stable-fraction test
`cats.count("Gizi Baik") / len(cats) >= 0.75` is carried out in exact
rational arithmetic rather than Python floats. -/
def interpret_trend (l : List (Option ℚ)) : String :=
  if l = [] then "Tidak ada data untuk analisis."
  else
    let cats := l.filterMap (fun o => o.bind cat)
    if cats = [] then "Data tidak mencukupi."
    else if cats.any (fun c => c = Category.sangatBuruk ∨ c = Category.giziBuruk) then
      "⚠️ Ada periode dengan status Gizi Buruk — perlu perhatian!"
    else if (3 : ℚ) / 4 ≤ (cats.count Category.giziBaik : ℚ) / (cats.length : ℚ)
        ∧ countChanges cats ≤ 1 then
      "✅ Gizi baik dan stabil sepanjang waktu."
    else if 3 ≤ countChanges cats then
      "🔁 Fluktuatif — perlu pemantauan berkala."
    else
      "Cenderung berubah — disarankan pemantauan rutin."

/-- The spec's band table (section 4.3 of the spec), written directly
from the spec's words to be compared with the source's `cat`:
`True` exactly when score `z` lies in the band of category `c`. -/
def specBand (c : Category) (z : ℚ) : Prop :=
  match c with
  | .sangatBuruk => z < -3
  | .giziBuruk => -3 ≤ z ∧ z < -2
  | .giziKurang => -2 ≤ z ∧ z < -1
  | .giziBaik => -1 ≤ z ∧ z < 2
  | .risikoGiziLebih => 2 ≤ z ∧ z < 3
  | .giziLebihObesitas => 3 ≤ z

instance (c : Category) (z : ℚ) : Decidable (specBand c z) := by
  unfold specBand
  cases c <;> infer_instance

/-- The six categories in band order. -/
def allCategories : List Category :=
  [.sangatBuruk, .giziBuruk, .giziKurang, .giziBaik, .risikoGiziLebih, .giziLebihObesitas]

/-! ### Cells and dates

A dataframe cell is either missing (NaN/NaT/None), a string, a number or
a timestamp.  Timestamps are modelled at day granularity, which is the
granularity the app's data carries. -/

/-- A calendar timestamp, day granularity. -/
structure Date where
  y : ℕ
  m : ℕ
  d : ℕ
deriving DecidableEq

/-- One dataframe cell. -/
inductive Cell where
  | missing
  | str (s : String)
  | num (q : ℚ)
  | date (t : Date)
deriving DecidableEq

/-- Whitespace as recognised by Python's `str.strip()` (restricted to the
four common ASCII whitespace characters). -/
def isSpc (c : Char) : Bool :=
  c = ' ' || c = '\t' || c = '\n' || c = '\r'

/-- Strip leading and trailing whitespace from a character list. -/
def stripChars (l : List Char) : List Char :=
  ((l.dropWhile isSpc).reverse.dropWhile isSpc).reverse

/-- Python's `str.strip()`. -/
def pyStrip (s : String) : String :=
  ⟨stripChars s.data⟩

/-- `str.replace(",", ".")`: every comma becomes a period. -/
def commaToDot (s : String) : String :=
  ⟨s.data.map (fun c => if c = ',' then '.' else c)⟩

/-- Rewrite every period to a comma; used only to state that a value
written with a decimal comma and one written with a decimal point
normalise alike. -/
def dotToComma (s : String) : String :=
  ⟨s.data.map (fun c => if c = '.' then ',' else c)⟩

/-- Numeric value of a digit string, most significant digit first. -/
def digitsVal (l : List Char) : ℕ :=
  l.foldl (fun acc c => acc * 10 + (c.toNat - 48)) 0

/-- Split a character list at the first period: integer part and, when a
period is present, fractional part.  A second period is left inside the
fractional part, where the digit check then rejects it. -/
def splitDot : List Char → List Char × Option (List Char)
  | [] => ([], none)
  | c :: r =>
    if c = '.' then ([], some r)
    else
      let p := splitDot r
      (c :: p.1, p.2)

/-- Python's `float(...)` / `pd.to_numeric` literal parser, modelled for
plain decimal notation: optional surrounding whitespace, optional sign,
digits with at most one period, at least one digit overall ("12.", ".5"
and "007" parse; "", ".", "1.2.3" and "abc" do not).  Exponent, infinity
and nan spellings are outside the model. -/
def parseFloat (s : String) : Option ℚ :=
  let l := stripChars s.data
  let sl : ℚ × List Char :=
    match l with
    | '-' :: r => (-1, r)
    | '+' :: r => (1, r)
    | r => (1, r)
  let p := splitDot sl.2
  match p.2 with
  | none =>
    if p.1 ≠ [] ∧ p.1.all Char.isDigit then
      some (sl.1 * (digitsVal p.1 : ℚ))
    else none
  | some f =>
    if (p.1 ≠ [] ∨ f ≠ []) ∧ p.1.all Char.isDigit ∧ f.all Char.isDigit then
      some (sl.1 * ((digitsVal p.1 : ℚ) + (digitsVal f : ℚ) / ((10 : ℚ) ^ f.length)))
    else none

/-- The per-cell effect of
`df[col].astype(str).str.replace(",", ".")` followed by
`pd.to_numeric(..., errors="coerce")` (app.py lines 55-58).
A missing cell prints as "nan", which does not survive `to_numeric`; a
numeric cell round-trips through its decimal rendering (Python float
repr round-trips exactly), so it is left unchanged; a timestamp's
rendering is not numeric and coerces to NaN. -/
def toNumericCell (c : Cell) : Cell :=
  match c with
  | .missing => .missing
  | .num q => .num q
  | .str s =>
    match parseFloat (commaToDot s) with
    | some q => .num q
    | none => .missing
  | .date _ => .missing

/-- Split a character list on '/' and '-' separators. -/
def splitSep : List Char → List (List Char)
  | [] => [[]]
  | c :: r =>
    let rest := splitSep r
    if c = '/' || c = '-' then [] :: rest
    else
      match rest with
      | [] => [[c]]
      | g :: gs => (c :: g) :: gs

/-- Day-first date parsing, a simplified model of
`pd.to_datetime(..., dayfirst=True, errors="coerce")` on text: three
'/'- or '-'-separated day, month, year digit groups with a calendar
sanity check; anything else fails. -/
def parseDate (s : String) : Option Date :=
  match splitSep (stripChars s.data) with
  | [dd, mm, yy] =>
    if dd ≠ [] ∧ mm ≠ [] ∧ yy ≠ [] ∧ dd.all Char.isDigit ∧ mm.all Char.isDigit
        ∧ yy.all Char.isDigit then
      let d := digitsVal dd
      let m := digitsVal mm
      if 1 ≤ d ∧ d ≤ 31 ∧ 1 ≤ m ∧ m ≤ 12 then some ⟨digitsVal yy, m, d⟩ else none
    else none
  | _ => none

/-- The per-cell effect of
`pd.to_datetime(df["Tanggal Pengukuran"], errors="coerce", dayfirst=True)`
(app.py line 54).  An already-parsed timestamp is unchanged, NaT stays
NaT, unparseable text coerces to NaT.  A bare numeric cell, which pandas
would read as an epoch offset, never reaches this column in the app's
flow and is modelled as NaT. -/
def toDateCell (c : Cell) : Cell :=
  match c with
  | .missing => .missing
  | .date t => .date t
  | .str s =>
    match parseDate s with
    | some t => .date t
    | none => .missing
  | .num _ => .missing

/-- Python's `str(...)` on a cell value: NaN prints as "nan". Numeric and
timestamp renderings are modelled by Lean's own printers; only their
stability matters to the claims below. -/
def renderCell : Cell → String
  | .missing => "nan"
  | .str s => s
  | .num q => toString q
  | .date t => toString t.y ++ "-" ++ toString t.m ++ "-" ++ toString t.d

/-- The per-cell effect of `df["Nama Anak"].astype(str).str.strip()`
(app.py line 60). -/
def toNameCell (c : Cell) : Cell :=
  .str (pyStrip (renderCell c))

/-! ### Rows, tables and `clean_and_prepare_df` -/

/-- One measurement record row, the standard upload shape. -/
structure Row where
  namaAnak : Cell
  namaIbu : Cell
  rt : Cell
  rw : Cell
  tanggal : Cell
  bb : Cell
  tb : Cell
  zBBU : Cell
  zTBU : Cell
  zBBTB : Cell
  statusBBTB : Cell
deriving DecidableEq

/-- An uploaded table.  The source branches on whether the "Nama Anak",
"Tanggal Pengukuran", "RT" and "RW" columns are present, so those four
carry presence flags; the five numeric columns are modelled as always
present (when absent in the source the corresponding coercion is simply
skipped, which no claim depends on). -/
structure Table where
  hasNama : Bool
  hasTanggal : Bool
  hasRT : Bool
  hasRW : Bool
  rows : List Row
deriving DecidableEq

/-- The row-wise effect of `clean_and_prepare_df` (app.py lines 49-61):
date parsing on "Tanggal Pengukuran" when present, numeric coercion with
comma handling on the five designated numeric columns, stringify-and-trim
on "Nama Anak" when present.  The source drops no rows. -/
def cleanRow (hasTanggal hasNama : Bool) (r : Row) : Row :=
  { r with
    tanggal := if hasTanggal then toDateCell r.tanggal else r.tanggal
    bb := toNumericCell r.bb
    tb := toNumericCell r.tb
    zBBU := toNumericCell r.zBBU
    zTBU := toNumericCell r.zTBU
    zBBTB := toNumericCell r.zBBTB
    namaAnak := if hasNama then toNameCell r.namaAnak else r.namaAnak }

/-- `clean_and_prepare_df` (app.py lines 49-61).  Column-name trimming is
absorbed by the fixed record shape. -/
def clean_and_prepare_df (t : Table) : Table :=
  { t with rows := t.rows.map (cleanRow t.hasTanggal t.hasNama) }

/-! ### Posyandu mapping (`map_posyandu`, app.py lines 121-140) -/

/-- Python's `str.zfill(w)`: pad on the left with zeros up to width `w`,
keeping a leading sign in front of the padding. -/
def pyZfill (w : ℕ) (s : String) : String :=
  if w ≤ s.length then s
  else
    match s.data with
    | '-' :: r => ⟨'-' :: (List.replicate (w - s.length) '0' ++ r)⟩
    | '+' :: r => ⟨'+' :: (List.replicate (w - s.length) '0' ++ r)⟩
    | r => ⟨List.replicate (w - s.length) '0' ++ r⟩

/-- `map_posyandu` (app.py lines 121-135), applied to the raw RT and RW
cell values: `str(rt).zfill(2)` / `str(rw).zfill(2)` followed by the
fixed first-match-wins rule chain with the `'Lainnya'` fallback. -/
def map_posyandu (rtc rwc : Cell) : String :=
  let rt := pyZfill 2 (renderCell rtc)
  let rw := pyZfill 2 (renderCell rwc)
  if rw = "06" ∧ rt ∈ ["01", "02", "03"] then "Larasati 1"
  else if rw ∈ ["04", "05"] ∧ rt ∈ ["01", "02"] then "Larasati 2"
  else if rw ∈ ["02", "03"] ∧ rt ∈ ["01", "02", "03"] then "Larasati 3"
  else if rw = "01" ∧ rt ∈ ["01", "02", "03"] then "Larasati 4"
  else if rw = "07" ∧ rt ∈ ["01", "02", "03"] then "Larasati 5"
  else "Lainnya"

/-- The Posyandu column as built in tab 1 (app.py lines 137-140): applied
per row when both the RT and RW columns exist, otherwise the whole column
is the constant "Tidak diketahui". -/
def posyanduColumn (t : Table) : List String :=
  if t.hasRT && t.hasRW then
    t.rows.map (fun r => map_posyandu r.rt r.rw)
  else
    t.rows.map (fun _ => "Tidak diketahui")

/-! ### Monthly last reading (`last_measurement_per_month`, app.py lines 63-72)

The source sorts by `["Nama Anak", "Tanggal Pengukuran"]` (a pandas
multi-column sort is a stable lexsort), buckets the date into a month
period, groups by `["Nama Anak", "Periode"]` — pandas drops rows whose
group key contains NaN/NaT, which excludes rows with a missing date —
and takes `GroupBy.last()`, which per pandas semantics keeps, column by
column, the last non-null entry of the group, not the whole last row. -/

/-- Lexicographic "less or equal" on character lists, by code point;
kernel-computable replacement for the string order used by the sort. -/
def clle : List Char → List Char → Prop
  | [], _ => True
  | _ :: _, [] => False
  | a :: as, b :: bs => a.toNat < b.toNat ∨ (a.toNat = b.toNat ∧ clle as bs)

instance clle.dec : (as bs : List Char) → Decidable (clle as bs)
  | [], _ => isTrue trivial
  | _ :: _, [] => isFalse (fun h => h)
  | _ :: as, _ :: bs =>
    have : Decidable (clle as bs) := clle.dec as bs
    inferInstanceAs (Decidable (_ ∨ _))

/-- Day-granularity order on timestamps: lexicographic on
(year, month, day). -/
def dateLe (a b : Date) : Prop :=
  a.y < b.y ∨ (a.y = b.y ∧ (a.m < b.m ∨ (a.m = b.m ∧ a.d ≤ b.d)))

instance : DecidableRel dateLe := fun a b => by
  unfold dateLe; infer_instance

/-- The timestamp sort key of a cell: `none` stands for NaT (or a
non-date cell, which cannot occur in a parsed date column). -/
def tkey : Cell → Option Date
  | .date t => some t
  | _ => none

/-- Order on optional timestamps with NaT sorted last
(`sort_values` default `na_position="last"`). -/
def odle : Option Date → Option Date → Prop
  | _, none => True
  | none, some _ => False
  | some a, some b => dateLe a b

instance : DecidableRel odle := fun a b => by
  cases a <;> cases b <;> unfold odle <;> infer_instance

/-- The name sort/group key of a row: the rendered "Nama Anak" cell. -/
def nameKey (r : Row) : String :=
  renderCell r.namaAnak

/-- The row order of
`df.sort_values(["Nama Anak", "Tanggal Pengukuran"])`:
lexicographic on (child name, date), NaT last. -/
def rowLe (a b : Row) : Prop :=
  (nameKey a = nameKey b ∧ odle (tkey a.tanggal) (tkey b.tanggal))
  ∨ (nameKey a ≠ nameKey b ∧ clle (nameKey a).data (nameKey b).data)

instance : DecidableRel rowLe := fun a b => by
  unfold rowLe; infer_instance

/-- `df["Tanggal Pengukuran"].dt.to_period("M")` on one cell: the
(year, month) bucket, `none` for NaT. -/
def periodOf : Cell → Option (ℕ × ℕ)
  | .date t => some (t.y, t.m)
  | _ => none

/-- A group key: (child name, period year, period month). -/
abbrev GKey := String × ℕ × ℕ

/-- The `groupby(["Nama Anak", "Periode"])` key of a row, `none` when the
date — hence the period — is missing; pandas drops such rows from the
grouping. -/
def rowKey (r : Row) : Option GKey :=
  (periodOf r.tanggal).map (fun p => (nameKey r, p.1, p.2))

/-- The rows of `t` in the stable (name, date)-ascending order of
app.py line 69.  `List.insertionSort` inserts an earlier element in
front of later ties, so it is stable, matching pandas lexsort. -/
def sortedRows (t : Table) : List Row :=
  t.rows.insertionSort rowLe

/-- The sorted rows that carry a group key (rows whose date is missing
carry none and are dropped, as `groupby` drops null keys). -/
def keyedRows (t : Table) : List (GKey × Row) :=
  (sortedRows t).filterMap (fun r => (rowKey r).map (fun k => (k, r)))

/-- All rows of the group of key `k`, in stable sorted order. -/
def groupFor (t : Table) (k : GKey) : List Row :=
  ((keyedRows t).filter (fun p => decide (p.1 = k))).map Prod.snd

/-- `GroupBy.last()` on one column: the last non-null entry, NaN if the
whole column of the group is null. -/
def lastNonNull (cs : List Cell) : Cell :=
  cs.foldl (fun acc c => if c = Cell.missing then acc else c) Cell.missing

/-- One output row of `last_measurement_per_month`: the group key made
into columns (`as_index=False`), the per-column `last()` aggregates, and
the derived `Periode_MonthStart` (first day of the month,
`Periode.dt.to_timestamp()`). -/
structure ORow where
  nama : String
  periodeY : ℕ
  periodeM : ℕ
  namaIbu : Cell
  rt : Cell
  rw : Cell
  tanggal : Cell
  bb : Cell
  tb : Cell
  zBBU : Cell
  zTBU : Cell
  zBBTB : Cell
  statusBBTB : Cell
  periodeMonthStart : Date
deriving DecidableEq

/-- The group key of an output row. -/
def ORow.gkey (o : ORow) : GKey :=
  (o.nama, o.periodeY, o.periodeM)

/-- Aggregate one group: per column, the last non-null entry. -/
def aggregateGroup (k : GKey) (g : List Row) : ORow :=
  { nama := k.1
    periodeY := k.2.1
    periodeM := k.2.2
    namaIbu := lastNonNull (g.map Row.namaIbu)
    rt := lastNonNull (g.map Row.rt)
    rw := lastNonNull (g.map Row.rw)
    tanggal := lastNonNull (g.map Row.tanggal)
    bb := lastNonNull (g.map Row.bb)
    tb := lastNonNull (g.map Row.tb)
    zBBU := lastNonNull (g.map Row.zBBU)
    zTBU := lastNonNull (g.map Row.zTBU)
    zBBTB := lastNonNull (g.map Row.zBBTB)
    statusBBTB := lastNonNull (g.map Row.statusBBTB)
    periodeMonthStart := ⟨k.2.1, k.2.2, 1⟩ }

/-- A whole input row re-shaped as an output row under group key `k`;
what "the row taken whole" means for the reducer's output. -/
def rowToORow (k : GKey) (r : Row) : ORow :=
  { nama := k.1
    periodeY := k.2.1
    periodeM := k.2.2
    namaIbu := r.namaIbu
    rt := r.rt
    rw := r.rw
    tanggal := r.tanggal
    bb := r.bb
    tb := r.tb
    zBBU := r.zBBU
    zTBU := r.zTBU
    zBBTB := r.zBBTB
    statusBBTB := r.statusBBTB
    periodeMonthStart := ⟨k.2.1, k.2.2, 1⟩ }

/-- Does a row have every aggregated column non-null? -/
def rowComplete (r : Row) : Bool :=
  r.namaIbu ≠ Cell.missing && r.rt ≠ Cell.missing && r.rw ≠ Cell.missing
    && r.tanggal ≠ Cell.missing && r.bb ≠ Cell.missing && r.tb ≠ Cell.missing
    && r.zBBU ≠ Cell.missing && r.zTBU ≠ Cell.missing && r.zBBTB ≠ Cell.missing
    && r.statusBBTB ≠ Cell.missing

/-- `last_measurement_per_month` (app.py lines 63-72).  When the date
column is absent the source returns an empty dataframe.  Group keys are
listed in first-occurrence order of the sorted rows, which for a sorted
input is ascending key order, matching `groupby(sort=True)`. -/
def last_measurement_per_month (t : Table) : List ORow :=
  if t.hasTanggal = false then []
  else
    (((keyedRows t).map Prod.fst).dedup).map (fun k => aggregateGroup k (groupFor t k))

/-! ### Manual prediction (tab 2, app.py lines 228-264) and history
(tab 3, lines 269-278) -/

/-- The "Status BB/U" selectbox options. -/
inductive StatusBBU where
  | sangatKurang
  | kurang
  | normal
  | risikoGiziLebih
deriving DecidableEq

/-- The "Status TB/U" selectbox options. -/
inductive StatusTBU where
  | sangatPendek
  | pendek
  | normal
  | tinggi
deriving DecidableEq

/-- The `map_bbu` encoding dictionary (app.py line 247). -/
def map_bbu : StatusBBU → ℕ
  | .sangatKurang => 0
  | .kurang => 1
  | .normal => 2
  | .risikoGiziLebih => 3

/-- The `map_tbu` encoding dictionary (app.py line 248). -/
def map_tbu : StatusTBU → ℕ
  | .sangatPendek => 0
  | .pendek => 1
  | .normal => 2
  | .tinggi => 3

/-- The feature row handed to the classifier (app.py lines 250-256). -/
structure XInput where
  zBBTB : ℚ
  zBBU : ℚ
  zTBU : ℚ
  encBBU : ℕ
  encTBU : ℕ

/-- The opaque Random-Forest artifact: `predict` gives a class index,
`predict_proba` gives the probability of each index. -/
structure RFModel where
  predictFn : XInput → ℕ
  probaFn : XInput → ℕ → ℚ

/-- `label_map` (app.py line 261) with its `.get(pred, 'Tidak diketahui')`
default. -/
def label_map (n : ℕ) : String :=
  match n with
  | 0 => "Gizi Buruk"
  | 1 => "Gizi Kurang"
  | 2 => "Gizi Baik"
  | 3 => "Risiko Gizi Lebih"
  | 4 => "Gizi Lebih"
  | 5 => "Obesitas"
  | _ => "Tidak diketahui"

/-- What the submit handler ends up showing. -/
inductive Outcome where
  | invalidInput (msg : String)
  | predicted (label : String) (prob : ℚ)
  | modelMissing
deriving DecidableEq

/-- The tab-2 submit handler (app.py lines 240-264): parse the three
z-score text fields with comma-to-period rewriting — one failure aborts
with an error before anything else (`st.error` + `st.stop`) — then build
the feature row and call the model when it is loaded.  The child name and
date inputs do not flow into the outcome. -/
def submitPrediction (model : Option RFModel) (zbbtbS zbbuS ztbuS : String)
    (sbbu : StatusBBU) (stbu : StatusTBU) : Outcome :=
  match parseFloat (commaToDot zbbtbS), parseFloat (commaToDot zbbuS),
      parseFloat (commaToDot ztbuS) with
  | some a, some b, some c =>
    let x : XInput := ⟨a, b, c, map_bbu sbbu, map_tbu stbu⟩
    match model with
    | some m => Outcome.predicted (label_map (m.predictFn x)) (m.probaFn x (m.predictFn x))
    | none => Outcome.modelMissing
  | _, _, _ => Outcome.invalidInput "Pastikan Z-score diisi dengan angka."

/-- The effect of one submit on the persisted history
`riwayat_prediksi.csv`: the handler (app.py lines 240-264) contains no
write to that file, so the history is unchanged whatever was submitted. -/
def historyAfterSubmit {α : Type} (hist : List α) : List α :=
  hist

/-- The tab-3 wipe action (app.py lines 274-276): `os.remove` deletes the
whole file. -/
def wipeHistory {α : Type} (_hist : List α) : List α :=
  []

/-! ## Theorems -/

/-! ### C6: the six bands partition the line -/

/-- C6: the six threshold bands are a total, non-overlapping partition of
the line: for every score `z` exactly one spec band contains `z`, and the
code's `cat` returns exactly that category (so in particular `cat` never
falls through and never produces a label outside the six bands). -/
theorem band_partition_unique (z : ℚ) :
    allCategories.filter (fun c => specBand c z) = (cat z).toList := by
  rcases lt_or_le z (-3) with h1 | h1
  · have n1 : ¬ (-3 : ℚ) ≤ z := not_le.mpr h1
    have n2 : ¬ (-2 : ℚ) ≤ z := fun h => n1 (by linarith)
    have n3 : ¬ (-1 : ℚ) ≤ z := fun h => n1 (by linarith)
    have n4 : ¬ (2 : ℚ) ≤ z := fun h => n1 (by linarith)
    have n5 : ¬ (3 : ℚ) ≤ z := fun h => n1 (by linarith)
    simp [allCategories, specBand, cat, h1, n1, n2, n3, n4, n5]
  · have m1 : ¬ z < -3 := not_lt.mpr h1
    rcases lt_or_le z (-2) with h2 | h2
    · have n2 : ¬ (-2 : ℚ) ≤ z := not_le.mpr h2
      have n3 : ¬ (-1 : ℚ) ≤ z := fun h => n2 (by linarith)
      have n4 : ¬ (2 : ℚ) ≤ z := fun h => n2 (by linarith)
      have n5 : ¬ (3 : ℚ) ≤ z := fun h => n2 (by linarith)
      simp [allCategories, specBand, cat, m1, h1, h2, n2, n3, n4, n5]
    · have m2 : ¬ z < -2 := not_lt.mpr h2
      rcases lt_or_le z (-1) with h3 | h3
      · have n3 : ¬ (-1 : ℚ) ≤ z := not_le.mpr h3
        have n4 : ¬ (2 : ℚ) ≤ z := fun h => n3 (by linarith)
        have n5 : ¬ (3 : ℚ) ≤ z := fun h => n3 (by linarith)
        simp [allCategories, specBand, cat, m1, h1, h2, h3, m2, n3, n4, n5]
      · have m3 : ¬ z < -1 := not_lt.mpr h3
        rcases lt_or_le z 2 with h4 | h4
        · have n4 : ¬ (2 : ℚ) ≤ z := not_le.mpr h4
          have n5 : ¬ (3 : ℚ) ≤ z := fun h => n4 (by linarith)
          simp [allCategories, specBand, cat, m1, m2, m3, h1, h2, h3, h4, n4, n5]
        · have m4 : ¬ z < 2 := not_lt.mpr h4
          rcases lt_or_le z 3 with h5 | h5
          · have n5 : ¬ (3 : ℚ) ≤ z := not_le.mpr h5
            simp [allCategories, specBand, cat, m1, m2, m3, m4, h1, h2, h3, h4, h5, n5]
          · have m5 : ¬ z < 3 := not_lt.mpr h5
            simp [allCategories, specBand, cat, m1, m2, m3, m4, m5, h1, h2, h3, h4, h5]

/-! ### C5: escalation wins -/

/-- C5: as soon as any non-missing score of the series maps to the
Severe ("Sangat Buruk") or Poor ("Gizi Buruk") band, `interpret_trend`
returns the escalation message, whatever the stable fraction or the
adjacent-change count — the escalation branch precedes both checks. -/
theorem trend_escalation_priority (l : List (Option ℚ))
    (h : ∃ o ∈ l, o.bind cat = some Category.sangatBuruk
        ∨ o.bind cat = some Category.giziBuruk) :
    interpret_trend l = "⚠️ Ada periode dengan status Gizi Buruk — perlu perhatian!" := by
  obtain ⟨o, ho, hc⟩ := h
  have hne : l ≠ [] := List.ne_nil_of_mem ho
  have hmem : ∃ c ∈ l.filterMap (fun o => o.bind cat),
      c = Category.sangatBuruk ∨ c = Category.giziBuruk := by
    rcases hc with hc | hc
    · exact ⟨Category.sangatBuruk, List.mem_filterMap.mpr ⟨o, ho, hc⟩, Or.inl rfl⟩
    · exact ⟨Category.giziBuruk, List.mem_filterMap.mpr ⟨o, ho, hc⟩, Or.inr rfl⟩
  obtain ⟨c, hcmem, hcor⟩ := hmem
  have hcats : l.filterMap (fun o => o.bind cat) ≠ [] := List.ne_nil_of_mem hcmem
  have hany : (l.filterMap (fun o => o.bind cat)).any
      (fun c => c = Category.sangatBuruk ∨ c = Category.giziBuruk) = true :=
    List.any_eq_true.mpr ⟨c, hcmem, by simpa using hcor⟩
  simp only [interpret_trend, if_neg hne, if_neg hcats, hany, if_pos]

/-- C5 witness: a single Severe reading (z = −4) triggers the escalation
verdict. -/
theorem trend_escalation_priority_witness :
    (∃ o ∈ [some (-4 : ℚ)], o.bind cat = some Category.sangatBuruk
        ∨ o.bind cat = some Category.giziBuruk)
    ∧ interpret_trend [some (-4 : ℚ)]
        = "⚠️ Ada periode dengan status Gizi Buruk — perlu perhatian!" :=
  ⟨by decide, trend_escalation_priority [some (-4 : ℚ)] (by decide)⟩

/-! ### C10: the verdict ignores missing entries -/

/-- Dropping the `none` entries of the series before categorising leaves
the category list unchanged, since a missing entry is itself dropped by
the `dropna` of the source. -/
theorem filterMap_cat_filter (l : List (Option ℚ)) :
    (l.filter (fun o => o.isSome)).filterMap (fun o => o.bind cat)
      = l.filterMap (fun o => o.bind cat) := by
  induction l with
  | nil => rfl
  | cons o tl ih =>
    cases o with
    | none => simpa [List.filter] using ih
    | some q => simp [List.filter, List.filterMap_cons, ih]

/-- C10: for a series with at least one non-missing entry, the trend
verdict is unchanged by removing the missing entries. -/
theorem trend_missing_invariant (l : List (Option ℚ))
    (h : ∃ o ∈ l, o ≠ none) :
    interpret_trend l = interpret_trend (l.filter (fun o => o.isSome)) := by
  obtain ⟨o, ho, hne⟩ := h
  have hl : l ≠ [] := List.ne_nil_of_mem ho
  have hos : o.isSome = true := Option.ne_none_iff_isSome.mp hne
  have hmemf : o ∈ l.filter (fun o => o.isSome) := List.mem_filter.mpr ⟨ho, hos⟩
  have hlf : l.filter (fun o => o.isSome) ≠ [] := List.ne_nil_of_mem hmemf
  simp only [interpret_trend, if_neg hl, if_neg hlf, filterMap_cat_filter]

/-- C10 witness: a series with one missing and one present reading gets
the same verdict as its present-only subsequence. -/
theorem trend_missing_invariant_witness :
    (∃ o ∈ [none, some (0 : ℚ)], o ≠ none)
    ∧ interpret_trend [none, some (0 : ℚ)]
        = interpret_trend ([none, some (0 : ℚ)].filter (fun o => o.isSome)) :=
  ⟨by decide, trend_missing_invariant [none, some (0 : ℚ)] (by decide)⟩

/-! ### C9: non-numeric z-scores abort before the classifier -/

/-- C9: if any of the three z-score text fields does not parse as a
number (after comma-to-period rewriting), the submission ends in the
user-facing error, for every state of the model — the classifier is
never consulted. -/
theorem invalid_zscore_rejected (model : Option RFModel) (z1 z2 z3 : String)
    (s1 : StatusBBU) (s2 : StatusTBU)
    (h : parseFloat (commaToDot z1) = none ∨ parseFloat (commaToDot z2) = none
        ∨ parseFloat (commaToDot z3) = none) :
    submitPrediction model z1 z2 z3 s1 s2
      = Outcome.invalidInput "Pastikan Z-score diisi dengan angka." := by
  rcases h with h | h | h
  · unfold submitPrediction
    rw [h]
  · unfold submitPrediction
    rw [h]
    cases parseFloat (commaToDot z1) <;> rfl
  · unfold submitPrediction
    rw [h]
    cases parseFloat (commaToDot z1) <;> cases parseFloat (commaToDot z2) <;> rfl

/-- C9 witness: a non-numeric first z-score aborts with the error message
even with no model loaded. -/
theorem invalid_zscore_rejected_witness :
    (parseFloat (commaToDot "abc") = none ∨ parseFloat (commaToDot "0") = none
        ∨ parseFloat (commaToDot "0") = none)
    ∧ submitPrediction none "abc" "0" "0" StatusBBU.normal StatusTBU.normal
        = Outcome.invalidInput "Pastikan Z-score diisi dengan angka." :=
  ⟨Or.inl (by decide),
    invalid_zscore_rejected none "abc" "0" "0" StatusBBU.normal StatusTBU.normal
      (Or.inl (by decide))⟩

/-! ### C8: decimal comma and decimal point agree -/

/-- On a comma-free string, rewriting periods to commas and then letting
the cleaner rewrite commas back to periods is the identity, so both
spellings reach the parser identically. -/
theorem commaToDot_dotToComma (s : String) (h : ',' ∉ s.data) :
    commaToDot (dotToComma s) = commaToDot s := by
  unfold commaToDot dotToComma
  apply String.ext
  show (s.data.map _).map _ = _
  rw [List.map_map]
  apply List.map_congr_left
  intro c hc
  have hnc : c ≠ ',' := fun e => h (e ▸ hc)
  by_cases hd : c = '.'
  · subst hd
    simp
  · simp [hd, hnc]

/-- C8: a value written with a decimal comma and the same value written
with a decimal point normalise to the same numeric cell, because the
comma is rewritten to a period before parsing; and a value that still
fails to parse becomes missing rather than an error. -/
theorem decimal_comma_equiv :
    (∀ s : String, ',' ∉ s.data →
        toNumericCell (Cell.str (dotToComma s)) = toNumericCell (Cell.str s))
    ∧ (∀ s : String, parseFloat (commaToDot s) = none →
        toNumericCell (Cell.str s) = Cell.missing) := by
  constructor
  · intro s h
    simp only [toNumericCell, commaToDot_dotToComma s h]
  · intro s h
    simp only [toNumericCell, h]

/-- C8 witness: "12,5" (the comma spelling of "12.5") cleans to the same
numeric cell as "12.5", and the unparseable "abc" cleans to missing. -/
theorem decimal_comma_equiv_witness :
    (',' ∉ "12.5".data ∧ dotToComma "12.5" = "12,5"
      ∧ toNumericCell (Cell.str (dotToComma "12.5")) = toNumericCell (Cell.str "12.5"))
    ∧ (parseFloat (commaToDot "abc") = none
      ∧ toNumericCell (Cell.str "abc") = Cell.missing) :=
  ⟨⟨by decide, by decide, decimal_comma_equiv.1 "12.5" (by decide)⟩,
    ⟨by decide, decimal_comma_equiv.2 "abc" (by decide)⟩⟩

/-! ### C7: the normalizer is idempotent -/

/-- The head surviving a `dropWhile` fails the predicate. -/
theorem dropWhile_head_not {α : Type} {p : α → Bool} :
    ∀ (l : List α) (a : α), (l.dropWhile p).head? = some a → p a = false := by
  intro l
  induction l with
  | nil => intro a h; simp at h
  | cons b tl ih =>
    intro a h
    by_cases hb : p b
    · rw [List.dropWhile_cons, if_pos hb] at h
      exact ih a h
    · rw [List.dropWhile_cons, if_neg hb] at h
      simp at h
      rw [← h]
      exact Bool.of_not_eq_true hb

/-- `dropWhile` leaves a list alone when its head already fails the
predicate. -/
theorem dropWhile_eq_self_of_head {α : Type} {p : α → Bool} {l : List α}
    (h : ∀ a, l.head? = some a → p a = false) : l.dropWhile p = l := by
  cases l with
  | nil => rfl
  | cons b tl =>
    have hb : p b = false := h b rfl
    rw [List.dropWhile_cons, if_neg (by simp [hb])]

/-- `dropWhile` is idempotent. -/
theorem dropWhile_idem {α : Type} {p : α → Bool} (l : List α) :
    (l.dropWhile p).dropWhile p = l.dropWhile p :=
  dropWhile_eq_self_of_head (dropWhile_head_not l)

/-- A nonempty `dropWhile` result keeps the last element of the list. -/
theorem getLast?_dropWhile {α : Type} {p : α → Bool} :
    ∀ (l : List α), l.dropWhile p ≠ [] → (l.dropWhile p).getLast? = l.getLast? := by
  intro l
  induction l with
  | nil => intro h; simp at h
  | cons b tl ih =>
    intro h
    by_cases hb : p b
    · rw [List.dropWhile_cons, if_pos hb] at h ⊢
      cases tl with
      | nil => simp at h
      | cons c tl2 =>
        rw [ih h, List.getLast?_cons_cons]
    · rw [List.dropWhile_cons, if_neg hb]

/-- Stripping whitespace from both ends is idempotent. -/
theorem stripChars_idem (l : List Char) :
    stripChars (stripChars l) = stripChars l := by
  unfold stripChars
  set d := l.dropWhile isSpc with hd
  set r := d.reverse.dropWhile isSpc with hr
  have h1 : r.reverse.dropWhile isSpc = r.reverse := by
    apply dropWhile_eq_self_of_head
    intro a ha
    rw [List.head?_reverse] at ha
    by_cases hrn : r = []
    · rw [hrn] at ha; simp at ha
    · rw [hr, getLast?_dropWhile d.reverse (hr ▸ hrn), List.getLast?_reverse] at ha
      exact dropWhile_head_not l a (hd ▸ ha)
  rw [h1, List.reverse_reverse, hr, dropWhile_idem]

/-- Python's `str.strip()` is idempotent. -/
theorem pyStrip_idem (s : String) : pyStrip (pyStrip s) = pyStrip s := by
  unfold pyStrip
  exact congrArg String.mk (stripChars_idem s.data)

/-- The name-column cleaning step is idempotent. -/
theorem toNameCell_idem (c : Cell) : toNameCell (toNameCell c) = toNameCell c := by
  unfold toNameCell renderCell
  exact congrArg Cell.str (pyStrip_idem _)

/-- The numeric-column cleaning step is idempotent. -/
theorem toNumericCell_idem (c : Cell) : toNumericCell (toNumericCell c) = toNumericCell c := by
  cases c with
  | missing => rfl
  | num q => rfl
  | date t => rfl
  | str s =>
    cases h : parseFloat (commaToDot s) <;> simp [toNumericCell, h]

/-- The date-column cleaning step is idempotent. -/
theorem toDateCell_idem (c : Cell) : toDateCell (toDateCell c) = toDateCell c := by
  cases c with
  | missing => rfl
  | num q => rfl
  | date t => rfl
  | str s =>
    cases h : parseDate s <;> simp [toDateCell, h]

/-- Row-wise cleaning is idempotent. -/
theorem cleanRow_idem (a b : Bool) (r : Row) :
    cleanRow a b (cleanRow a b r) = cleanRow a b r := by
  cases a <;> cases b <;>
    simp [cleanRow, toDateCell_idem, toNumericCell_idem, toNameCell_idem]

/-- C7: `clean_and_prepare_df` is idempotent — cleaning its own output
changes nothing. -/
theorem normalizer_idempotent (t : Table) :
    clean_and_prepare_df (clean_and_prepare_df t) = clean_and_prepare_df t := by
  unfold clean_and_prepare_df
  simp only [List.map_map]
  congr 1
  apply List.map_congr_left
  intro r _
  exact cleanRow_idem t.hasTanggal t.hasNama r

/-! ### Concrete fixtures -/

/-- A row with every cell missing. -/
def emptyRow : Row :=
  ⟨Cell.missing, Cell.missing, Cell.missing, Cell.missing, Cell.missing, Cell.missing,
    Cell.missing, Cell.missing, Cell.missing, Cell.missing, Cell.missing⟩

/-- A row whose child name is the empty string. -/
def rowEmptyName : Row :=
  { emptyRow with namaAnak := Cell.str "" }

/-- Two identical empty-name rows plus one missing-name row. -/
def tDupEmpty : Table :=
  ⟨true, true, true, true, [rowEmptyName, rowEmptyName, emptyRow]⟩

/-! ### C2: the normalizer drops no rows -/

/-- C2 counterexample: on a table with two fully identical empty-name
rows and one missing-name row, the cleaned output still has all three
rows — the empty names survive, the missing name becomes the text "nan",
and the duplicate pair is kept. -/
theorem normalizer_drop_counterexample :
    (clean_and_prepare_df tDupEmpty).rows.map Row.namaAnak
        = [Cell.str "", Cell.str "", Cell.str "nan"]
    ∧ (clean_and_prepare_df tDupEmpty).rows.length = 3
    ∧ ¬ (clean_and_prepare_df tDupEmpty).rows.Nodup := by
  decide

/-- C2 (amended): `clean_and_prepare_df` performs no row filtering: the
output has exactly one (cleaned) row per input row, in order — rows with
a missing or empty child name and fully duplicate rows are all retained,
a missing name becoming the string "nan". -/
theorem normalizer_keeps_rows (t : Table) :
    (clean_and_prepare_df t).rows.length = t.rows.length
    ∧ (clean_and_prepare_df t).rows = t.rows.map (cleanRow t.hasTanggal t.hasNama)
    ∧ ∀ r ∈ t.rows, cleanRow t.hasTanggal t.hasNama r ∈ (clean_and_prepare_df t).rows := by
  refine ⟨by simp [clean_and_prepare_df], rfl, ?_⟩
  intro r hr
  exact List.mem_map_of_mem _ hr

/-- C2 witness: the amended statement, instantiated at the fixture
table. -/
theorem normalizer_keeps_rows_witness :
    (clean_and_prepare_df tDupEmpty).rows.length = tDupEmpty.rows.length
    ∧ (clean_and_prepare_df tDupEmpty).rows
        = tDupEmpty.rows.map (cleanRow tDupEmpty.hasTanggal tDupEmpty.hasNama)
    ∧ ∀ r ∈ tDupEmpty.rows,
        cleanRow tDupEmpty.hasTanggal tDupEmpty.hasNama r ∈ (clean_and_prepare_df tDupEmpty).rows :=
  normalizer_keeps_rows tDupEmpty

/-! ### C3: the posyandu rule table and its fallbacks -/

/-- A table without the RT and RW columns. -/
def tNoZoneCols : Table :=
  ⟨true, true, false, false, [emptyRow]⟩

/-- A row with RW present ("06") but RT missing. -/
def rowMissingRT : Row :=
  { emptyRow with namaAnak := Cell.str "A", rw := Cell.str "06" }

/-- A table that has both zone columns but a missing RT value in its only
row. -/
def tMissingRT : Table :=
  ⟨true, true, true, true, [rowMissingRT]⟩

/-- C3 counterexample: a row missing one zone identifier (RT), in a table
where both zone columns exist, is mapped to the "Lainnya" (other)
fallback — `str(nan)` is "nan", which no rule matches — not to the
distinct "Tidak diketahui" (unknown) marker. -/
theorem posyandu_missing_counterexample :
    posyanduColumn tMissingRT = ["Lainnya"]
    ∧ map_posyandu Cell.missing (Cell.str "06") = "Lainnya"
    ∧ "Lainnya" ≠ "Tidak diketahui" := by
  decide

/-- C3 (amended): the rule table behaves as claimed on present
identifiers — zero-padding included, with "other" when no rule matches —
and a missing value in a present zone column also falls to "other"; the
distinct "unknown" marker is applied to every row exactly when either
zone column is absent from the table. -/
theorem posyandu_rules :
    map_posyandu (Cell.str "02") (Cell.str "06") = "Larasati 1"
    ∧ map_posyandu (Cell.str "02") (Cell.str "01") = "Larasati 4"
    ∧ map_posyandu (Cell.str "01") (Cell.str "09") = "Lainnya"
    ∧ map_posyandu (Cell.str "2") (Cell.str "6") = "Larasati 1"
    ∧ (∀ c : Cell, map_posyandu Cell.missing c = "Lainnya")
    ∧ (∀ c : Cell, map_posyandu c Cell.missing = "Lainnya")
    ∧ (∀ t : Table, (t.hasRT && t.hasRW) = false →
        posyanduColumn t = t.rows.map (fun _ => "Tidak diketahui"))
    ∧ (∀ t : Table, (t.hasRT && t.hasRW) = true →
        posyanduColumn t = t.rows.map (fun r => map_posyandu r.rt r.rw)) := by
  have hz : pyZfill 2 "nan" = "nan" := by decide
  refine ⟨by decide, by decide, by decide, by decide, ?_, ?_, ?_, ?_⟩
  · intro c
    simp [map_posyandu, renderCell, hz]
  · intro c
    simp [map_posyandu, renderCell, hz]
  · intro t h
    simp [posyanduColumn, h]
  · intro t h
    simp [posyanduColumn, h]

/-- C3 witness: the two conditional clauses of the amended statement,
instantiated at a table lacking the zone columns and at one having
them. -/
theorem posyandu_rules_witness :
    ((tNoZoneCols.hasRT && tNoZoneCols.hasRW) = false
      ∧ posyanduColumn tNoZoneCols = tNoZoneCols.rows.map (fun _ => "Tidak diketahui"))
    ∧ ((tMissingRT.hasRT && tMissingRT.hasRW) = true
      ∧ posyanduColumn tMissingRT = tMissingRT.rows.map (fun r => map_posyandu r.rt r.rw)) :=
  ⟨⟨by decide, posyandu_rules.2.2.2.2.2.2.1 tNoZoneCols (by decide)⟩,
    ⟨by decide, posyandu_rules.2.2.2.2.2.2.2 tMissingRT (by decide)⟩⟩

/-! ### C4: no prediction is ever written to the history -/

/-- A stand-in classifier artifact: always class 2 with probability
9/10. -/
def testModel : RFModel :=
  ⟨fun _ => 2, fun _ _ => 9 / 10⟩

/-- C4: the code contradicts the append claim — a fully successful
manual prediction (valid z-scores, model loaded, a label and probability
produced) leaves the persisted history exactly as it was, because the
submit handler contains no write to `riwayat_prediksi.csv`; only the
wipe half of the claim holds. -/
theorem prediction_no_history_append :
    submitPrediction (some testModel) "0" "0" "0" StatusBBU.normal StatusTBU.normal
      = Outcome.predicted "Gizi Baik" ((9 : ℚ) / 10)
    ∧ historyAfterSubmit ([] : List Outcome) = []
    ∧ ∀ hist : List Outcome, wipeHistory hist = [] := by
  exact ⟨rfl, rfl, fun _ => rfl⟩

/-! ### C1: order and grouping lemmas for the monthly reducer -/

/-- Characters with equal code points are equal. -/
theorem charToNat_inj {a b : Char} (h : a.toNat = b.toNat) : a = b := by
  unfold Char.toNat at h
  exact Char.ext (by exact UInt32.toNat.inj (by exact h))

/-- The character-list order is total. -/
theorem clle_total : ∀ as bs : List Char, clle as bs ∨ clle bs as
  | [], _ => Or.inl trivial
  | _ :: _, [] => Or.inr trivial
  | a :: as, b :: bs => by
    rcases Nat.lt_trichotomy a.toNat b.toNat with h | h | h
    · exact Or.inl (Or.inl h)
    · rcases clle_total as bs with ih | ih
      · exact Or.inl (Or.inr ⟨h, ih⟩)
      · exact Or.inr (Or.inr ⟨h.symm, ih⟩)
    · exact Or.inr (Or.inl h)

/-- The character-list order is transitive. -/
theorem clle_trans : ∀ as bs cs : List Char, clle as bs → clle bs cs → clle as cs
  | [], _, _, _, _ => trivial
  | _ :: _, [], _, h1, _ => absurd h1 (fun h => h)
  | _ :: _, _ :: _, [], _, h2 => absurd h2 (fun h => h)
  | a :: as, b :: bs, c :: cs, h1, h2 => by
    rcases h1 with h1 | ⟨e1, r1⟩ <;> rcases h2 with h2 | ⟨e2, r2⟩
    · exact Or.inl (by omega)
    · exact Or.inl (by omega)
    · exact Or.inl (by omega)
    · exact Or.inr ⟨by omega, clle_trans as bs cs r1 r2⟩

/-- The character-list order is antisymmetric. -/
theorem clle_antisymm : ∀ as bs : List Char, clle as bs → clle bs as → as = bs
  | [], [], _, _ => rfl
  | [], _ :: _, _, h2 => absurd h2 (fun h => h)
  | _ :: _, [], h1, _ => absurd h1 (fun h => h)
  | a :: as, b :: bs, h1, h2 => by
    rcases h1 with h1 | ⟨e1, r1⟩ <;> rcases h2 with h2 | ⟨e2, r2⟩
    · exact (by omega : False).elim
    · exact (by omega : False).elim
    · exact (by omega : False).elim
    · rw [charToNat_inj e1, clle_antisymm as bs r1 r2]

/-- The day-granularity timestamp order is reflexive. -/
theorem dateLe_refl (a : Date) : dateLe a a := by
  unfold dateLe; omega

/-- The day-granularity timestamp order is total. -/
theorem dateLe_total (a b : Date) : dateLe a b ∨ dateLe b a := by
  unfold dateLe; omega

/-- The day-granularity timestamp order is transitive. -/
theorem dateLe_trans {a b c : Date} (h1 : dateLe a b) (h2 : dateLe b c) : dateLe a c := by
  unfold dateLe at h1 h2 ⊢; omega

/-- The NaT-last optional timestamp order is reflexive. -/
theorem odle_refl (x : Option Date) : odle x x := by
  cases x with
  | none => trivial
  | some a => exact dateLe_refl a

/-- The NaT-last optional timestamp order is total. -/
theorem odle_total (x y : Option Date) : odle x y ∨ odle y x := by
  cases x with
  | none => cases y with
    | none => exact Or.inl trivial
    | some b => exact Or.inr trivial
  | some a => cases y with
    | none => exact Or.inl trivial
    | some b => exact dateLe_total a b

/-- The NaT-last optional timestamp order is transitive. -/
theorem odle_trans {x y z : Option Date} (h1 : odle x y) (h2 : odle y z) : odle x z := by
  cases x <;> cases y <;> cases z <;>
    first
      | trivial
      | exact absurd h1 (fun h => h)
      | exact absurd h2 (fun h => h)
      | exact dateLe_trans h1 h2

/-- The pandas row sort order is reflexive. -/
theorem rowLe_refl (r : Row) : rowLe r r :=
  Or.inl ⟨rfl, odle_refl _⟩

instance : IsTotal Row rowLe :=
  ⟨by
    intro a b
    by_cases h : nameKey a = nameKey b
    · rcases odle_total (tkey a.tanggal) (tkey b.tanggal) with hd | hd
      · exact Or.inl (Or.inl ⟨h, hd⟩)
      · exact Or.inr (Or.inl ⟨h.symm, hd⟩)
    · rcases clle_total (nameKey a).data (nameKey b).data with hc | hc
      · exact Or.inl (Or.inr ⟨h, hc⟩)
      · exact Or.inr (Or.inr ⟨fun e => h e.symm, hc⟩)⟩

instance : IsTrans Row rowLe :=
  ⟨by
    intro a b c h1 h2
    rcases h1 with ⟨e1, d1⟩ | ⟨n1, c1⟩
    · rcases h2 with ⟨e2, d2⟩ | ⟨n2, c2⟩
      · exact Or.inl ⟨e1.trans e2, odle_trans d1 d2⟩
      · refine Or.inr ⟨fun e => n2 (e1.symm.trans e), ?_⟩
        rw [show (nameKey a).data = (nameKey b).data from congrArg String.data e1]
        exact c2
    · rcases h2 with ⟨e2, d2⟩ | ⟨n2, c2⟩
      · refine Or.inr ⟨fun e => n1 (e.trans e2.symm), ?_⟩
        rw [show (nameKey c).data = (nameKey b).data from congrArg String.data e2.symm]
        exact c1
      · have hac := clle_trans _ _ _ c1 c2
        by_cases e : nameKey a = nameKey c
        · exfalso
          have hdata : (nameKey a).data = (nameKey c).data := congrArg String.data e
          have hba : clle (nameKey b).data (nameKey a).data := by
            rw [hdata]; exact c2
          exact n1 (String.ext (clle_antisymm _ _ c1 hba))
        · exact Or.inr ⟨e, hac⟩⟩

/-- The stable sort of the reducer produces a `rowLe`-sorted list. -/
theorem sortedRows_pairwise (t : Table) : (sortedRows t).Pairwise rowLe :=
  List.sorted_insertionSort rowLe t.rows

/-- A `getLast?` element is a member. -/
theorem getLast?_mem' {α : Type} : ∀ {l : List α} {y : α}, l.getLast? = some y → y ∈ l := by
  intro l
  induction l with
  | nil => intro y h; simp at h
  | cons a tl ih =>
    intro y h
    cases tl with
    | nil =>
      simp at h
      simp [h]
    | cons b tl2 =>
      rw [List.getLast?_cons_cons] at h
      exact List.mem_cons.mpr (Or.inr (ih h))

/-- In a pairwise-related list, every element is related to the last
one. -/
theorem pairwise_rel_getLast? {α : Type} {r : α → α → Prop} (hrefl : ∀ a, r a a) :
    ∀ (l : List α) (y : α), l.Pairwise r → l.getLast? = some y → ∀ x ∈ l, r x y := by
  intro l
  induction l with
  | nil => intro y _ h; simp at h
  | cons a tl ih =>
    intro y hp hl x hx
    cases tl with
    | nil =>
      simp at hl hx
      rw [hx, ← hl]
      exact hrefl a
    | cons b tl2 =>
      rw [List.getLast?_cons_cons] at hl
      rcases List.mem_cons.mp hx with rfl | hx2
      · exact (List.pairwise_cons.mp hp).1 y (getLast?_mem' hl)
      · exact ih y (List.pairwise_cons.mp hp).2 hl x hx2

/-- `lastNonNull` folds to the last entry when that entry is
non-null. -/
theorem foldl_lastNonNull :
    ∀ (tl : List Cell) (init c : Cell), tl.getLast? = some c → c ≠ Cell.missing →
      tl.foldl (fun acc x => if x = Cell.missing then acc else x) init = c := by
  intro tl
  induction tl with
  | nil => intro init c h _; simp at h
  | cons b tl2 ih =>
    intro init c h hc
    cases tl2 with
    | nil =>
      simp at h
      rw [← h] at hc ⊢
      simp [List.foldl, if_neg hc]
    | cons d tl3 =>
      rw [List.getLast?_cons_cons] at h
      exact ih _ c h hc

/-- `GroupBy.last` on a column whose last entry is non-null returns that
entry. -/
theorem lastNonNull_eq {cs : List Cell} {c : Cell} (h : cs.getLast? = some c)
    (hc : c ≠ Cell.missing) : lastNonNull cs = c :=
  foldl_lastNonNull cs Cell.missing c h hc

/-- Extracting the row components of the keyed list is a sublist of the
underlying rows. -/
theorem keyed_snd_sublist :
    ∀ l : List Row,
      ((l.filterMap (fun r => (rowKey r).map (fun k => (k, r)))).map Prod.snd).Sublist l := by
  intro l
  induction l with
  | nil => simp
  | cons a tl ih =>
    rw [List.filterMap_cons]
    cases h : rowKey a with
    | none => simpa using ih.cons a
    | some k => simpa using ih.cons₂ a

/-- Each group, in order, is a sublist of the sorted rows. -/
theorem groupFor_sublist_sorted (t : Table) (k : GKey) :
    (groupFor t k).Sublist (sortedRows t) := by
  unfold groupFor keyedRows
  exact (List.Sublist.map Prod.snd (List.filter_sublist _)).trans (keyed_snd_sublist _)

/-- Each group inherits the sort order. -/
theorem groupFor_pairwise (t : Table) (k : GKey) : (groupFor t k).Pairwise rowLe :=
  List.Pairwise.sublist (groupFor_sublist_sorted t k) (sortedRows_pairwise t)

/-- Membership in the keyed rows. -/
theorem mem_keyedRows {t : Table} {p : GKey × Row} :
    p ∈ keyedRows t ↔ p.2 ∈ sortedRows t ∧ rowKey p.2 = some p.1 := by
  unfold keyedRows
  rw [List.mem_filterMap]
  constructor
  · rintro ⟨r, hr, hmap⟩
    cases hk : rowKey r with
    | none => rw [hk] at hmap; simp at hmap
    | some k =>
      rw [hk] at hmap
      simp at hmap
      rw [← hmap]
      exact ⟨hr, hk⟩
  · rintro ⟨hmem, hkey⟩
    exact ⟨p.2, hmem, by rw [hkey]; rfl⟩

/-- Membership in a group: a sorted row carrying exactly that key. -/
theorem mem_groupFor {t : Table} {k : GKey} {r : Row} :
    r ∈ groupFor t k ↔ r ∈ sortedRows t ∧ rowKey r = some k := by
  unfold groupFor
  rw [List.mem_map]
  constructor
  · rintro ⟨p, hp, rfl⟩
    have h := List.mem_filter.mp hp
    have hk : p.1 = k := by simpa using h.2
    have h2 := mem_keyedRows.mp h.1
    exact ⟨h2.1, by rw [h2.2, hk]⟩
  · rintro ⟨hmem, hkey⟩
    exact ⟨(k, r), List.mem_filter.mpr ⟨mem_keyedRows.mpr ⟨hmem, hkey⟩, by simp⟩, rfl⟩

/-- Every row of a group carries the group's name and a present date. -/
theorem groupFor_row_shape {t : Table} {k : GKey} {r : Row} (h : r ∈ groupFor t k) :
    nameKey r = k.1 ∧ ∃ d : Date, r.tanggal = Cell.date d := by
  have hkey := (mem_groupFor.mp h).2
  unfold rowKey at hkey
  cases hc : r.tanggal with
  | date d =>
    rw [hc] at hkey
    simp [periodOf] at hkey
    exact ⟨by rw [← hkey], d, rfl⟩
  | missing => rw [hc] at hkey; simp [periodOf] at hkey
  | str s => rw [hc] at hkey; simp [periodOf] at hkey
  | num q => rw [hc] at hkey; simp [periodOf] at hkey

/-- Within a group every date is at most the date of the last row. -/
theorem groupFor_odle_getLast {t : Table} {k : GKey} {last : Row}
    (hl : (groupFor t k).getLast? = some last) :
    ∀ r ∈ groupFor t k, odle (tkey r.tanggal) (tkey last.tanggal) := by
  intro r hr
  have hrel : rowLe r last :=
    pairwise_rel_getLast? rowLe_refl (groupFor t k) last (groupFor_pairwise t k) hl r hr
  rcases hrel with ⟨_, hd⟩ | ⟨hn, _⟩
  · exact hd
  · exact absurd ((groupFor_row_shape hr).1.trans
      (groupFor_row_shape (getLast?_mem' hl)).1.symm) hn

/-- A child with a day-1 and a day-28 reading in one month; the later
reading has a missing status cell that the earlier reading carries. -/
def rowJan1 : Row :=
  { emptyRow with
    namaAnak := Cell.str "A"
    tanggal := Cell.date ⟨2023, 1, 1⟩
    statusBBTB := Cell.str "ok" }

/-- The day-28 reading, with a missing status cell. -/
def rowJan28 : Row :=
  { emptyRow with namaAnak := Cell.str "A", tanggal := Cell.date ⟨2023, 1, 28⟩ }

/-- A cleaned table with the two same-month readings. -/
def tMixed : Table :=
  ⟨true, true, true, true, [rowJan1, rowJan28]⟩

/-- C1 counterexample: the reducer's single output row for the group has
the day-28 (maximal) date but the day-1 row's status cell — pandas
`GroupBy.last()` takes the last non-null entry per column — so the output
is not the maximal-date row taken as a whole row. -/
theorem last_measurement_counterexample :
    last_measurement_per_month tMixed
      = [{ nama := "A"
           periodeY := 2023
           periodeM := 1
           namaIbu := Cell.missing
           rt := Cell.missing
           rw := Cell.missing
           tanggal := Cell.date ⟨2023, 1, 28⟩
           bb := Cell.missing
           tb := Cell.missing
           zBBU := Cell.missing
           zTBU := Cell.missing
           zBBTB := Cell.missing
           statusBBTB := Cell.str "ok"
           periodeMonthStart := ⟨2023, 1, 1⟩ }]
    ∧ last_measurement_per_month tMixed ≠ [rowToORow ("A", 2023, 1) rowJan28] := by
  decide

/-- C1 (amended): for every table with a date column, the reducer
returns exactly one row per (child, month) key of the date-carrying rows
— rows with a missing date are excluded — and that row's date is the
date of the last row of the group after the stable ascending
(child, date) sort, hence the maximal date of the group (ties resolved
in favour of the stable-sort-last row); each remaining field is the last
non-null entry of its column, so the output equals the stable-sort-last
row taken whole whenever that row has no missing fields, but not in
general. -/
theorem last_measurement_corrected (t : Table) (hT : t.hasTanggal = true) :
    ((last_measurement_per_month t).map ORow.gkey).Nodup
    ∧ (∀ k : GKey, k ∈ (last_measurement_per_month t).map ORow.gkey
        ↔ ∃ r ∈ t.rows, rowKey r = some k)
    ∧ ∀ o ∈ last_measurement_per_month t, ∃ last : Row,
        (groupFor t o.gkey).getLast? = some last
        ∧ (∀ r ∈ groupFor t o.gkey, ∃ d : Date, r.tanggal = Cell.date d)
        ∧ o.tanggal = last.tanggal
        ∧ (∀ r ∈ groupFor t o.gkey, odle (tkey r.tanggal) (tkey last.tanggal))
        ∧ (rowComplete last = true → o = rowToORow o.gkey last) := by
  have hout : last_measurement_per_month t
      = (((keyedRows t).map Prod.fst).dedup).map (fun k => aggregateGroup k (groupFor t k)) := by
    unfold last_measurement_per_month
    rw [hT]
    rfl
  have hkeys : (last_measurement_per_month t).map ORow.gkey
      = ((keyedRows t).map Prod.fst).dedup := by
    rw [hout, List.map_map]
    have hcomp : (ORow.gkey ∘ fun k => aggregateGroup k (groupFor t k)) = id :=
      funext fun k => rfl
    rw [hcomp, List.map_id]
  refine ⟨?_, ?_, ?_⟩
  · rw [hkeys]
    exact List.nodup_dedup _
  · intro k
    rw [hkeys, List.mem_dedup, List.mem_map]
    constructor
    · rintro ⟨p, hp, rfl⟩
      have h := mem_keyedRows.mp hp
      exact ⟨p.2, (List.perm_insertionSort rowLe t.rows).mem_iff.mp h.1, h.2⟩
    · rintro ⟨r, hr, hk⟩
      exact ⟨(k, r), mem_keyedRows.mpr
        ⟨(List.perm_insertionSort rowLe t.rows).mem_iff.mpr hr, hk⟩, rfl⟩
  · intro o ho
    rw [hout] at ho
    obtain ⟨k, hk, rfl⟩ := List.mem_map.mp ho
    have hgne : groupFor t k ≠ [] := by
      obtain ⟨p, hp, hpk⟩ := List.mem_map.mp (List.mem_dedup.mp hk)
      have h := mem_keyedRows.mp hp
      refine List.ne_nil_of_mem (mem_groupFor.mpr ⟨h.1, ?_⟩)
      rw [h.2, hpk]
    cases hgl : (groupFor t k).getLast? with
    | none => exact absurd (List.getLast?_eq_none_iff.mp hgl) hgne
    | some last =>
      have hfield : ∀ f : Row → Cell, f last ≠ Cell.missing
          → lastNonNull ((groupFor t k).map f) = f last := by
        intro f hf
        exact lastNonNull_eq (by rw [List.getLast?_map, hgl]; rfl) hf
      have hlast_shape := groupFor_row_shape (getLast?_mem' hgl)
      have hdt : last.tanggal ≠ Cell.missing := by
        obtain ⟨d, hd⟩ := hlast_shape.2
        rw [hd]
        exact fun h => Cell.noConfusion h
      refine ⟨last, hgl, fun r hr => (groupFor_row_shape hr).2,
        hfield Row.tanggal hdt, groupFor_odle_getLast hgl, ?_⟩
      intro hcomp
      simp only [rowComplete, Bool.and_eq_true, decide_eq_true_eq] at hcomp
      obtain ⟨⟨⟨⟨⟨⟨⟨⟨⟨h1, h2⟩, h3⟩, h4⟩, h5⟩, h6⟩, h7⟩, h8⟩, h9⟩, h10⟩ := hcomp
      show aggregateGroup k (groupFor t k) = rowToORow k last
      simp only [aggregateGroup, rowToORow, ORow.mk.injEq, true_and, and_true]
      exact ⟨hfield Row.namaIbu h1, hfield Row.rt h2, hfield Row.rw h3,
        hfield Row.tanggal h4, hfield Row.bb h5, hfield Row.tb h6, hfield Row.zBBU h7,
        hfield Row.zTBU h8, hfield Row.zBBTB h9, hfield Row.statusBBTB h10⟩

/-- C1 witness: the amended statement, instantiated at the two-reading
fixture table. -/
theorem last_measurement_corrected_witness :
    tMixed.hasTanggal = true
    ∧ (((last_measurement_per_month tMixed).map ORow.gkey).Nodup
      ∧ (∀ k : GKey, k ∈ (last_measurement_per_month tMixed).map ORow.gkey
          ↔ ∃ r ∈ tMixed.rows, rowKey r = some k)
      ∧ ∀ o ∈ last_measurement_per_month tMixed, ∃ last : Row,
          (groupFor tMixed o.gkey).getLast? = some last
          ∧ (∀ r ∈ groupFor tMixed o.gkey, ∃ d : Date, r.tanggal = Cell.date d)
          ∧ o.tanggal = last.tanggal
          ∧ (∀ r ∈ groupFor tMixed o.gkey, odle (tkey r.tanggal) (tkey last.tanggal))
          ∧ (rowComplete last = true → o = rowToORow o.gkey last)) :=
  ⟨rfl, last_measurement_corrected tMixed rfl⟩

end GiziApp
